import Mathlib

/-!
Verification of the smart-scraper core: a shallow embedding of the
list-identification, field-resolution, extraction, CSV export and AI-clean
merge logic, together with theorems about the properties the design
documentation states.

Modelling conventions:
* A document tree is the inductive `Node`; element tag names are stored
  lowercase (the DOM reports them uppercase and the code lowercases them
  before building selectors, so equality of lowercase tags models the
  code's tag comparisons faithfully).
* DOM node identity (`!==` comparisons, `parentElement` walks) is modelled
  by paths: a node reference is the list of child indices leading to it
  from the root.
* The selectors the code constructs are only ever of the shapes
  `tag`, `tag.class`, `.class`, or the `_ROOT_` sentinel, so `Selector`
  is an inductive with exactly those shapes.
* JavaScript object rows (`ScrapedRow`) are insertion-ordered association
  lists; a value of `none` models a key that is present but `undefined`.
* String operations are carried out on `String.data` character lists so
  that every definition evaluates by kernel reduction.
-/

namespace Scraper

/-- A document node: either a text node or an element with a tag name,
a class list, an attribute list and children. -/
inductive Node where
  | text (s : String)
  | elem (tag : String) (classes : List String)
      (attrs : List (String × String)) (children : List Node)

/-- Children of a node (text nodes have none). -/
def childrenOf : Node → List Node
  | .text _ => []
  | .elem _ _ _ cs => cs

/-- Tag name of a node; text nodes report the empty string (they have no
tag name and never match a selector). -/
def tagOf : Node → String
  | .text _ => ""
  | .elem t _ _ _ => t

/-- Class list of a node. -/
def classesOf : Node → List String
  | .text _ => []
  | .elem _ c _ _ => c

/-- Attribute list of a node. -/
def attrsOf : Node → List (String × String)
  | .text _ => []
  | .elem _ _ a _ => a

/-- Whether the node is an element. -/
def isElem : Node → Bool
  | .text _ => false
  | .elem _ _ _ _ => true

/-- The value types a field can have (mirrors `FieldType` in `types.ts`). -/
inductive FieldType where
  | TEXT
  | IMAGE
  | LINK
deriving DecidableEq

/-- The selector shapes the application constructs: the `_ROOT_` sentinel,
a bare tag, `tag.class`, or `.class`. -/
inductive Selector where
  | root
  | tag (t : String)
  | tagClass (t : String) (c : String)
  | classOnly (c : String)
deriving DecidableEq

/-- CSS matching for the selector shapes in play. Text nodes match nothing. -/
def matchesSel (sel : Selector) (n : Node) : Bool :=
  match n with
  | .text _ => false
  | .elem tag classes _ _ =>
    match sel with
    | .root => false
    | .tag t => tag == t
    | .tagClass t c => tag == t && classes.contains c
    | .classOnly c => classes.contains c

/-- A node reference: the list of child indices from the document root. -/
abbrev Path := List Nat

/-- Resolve a path to the node it denotes, if any. -/
def nodeAt (n : Node) : Path → Option Node
  | [] => some n
  | i :: p =>
    match (childrenOf n)[i]? with
    | some c => nodeAt c p
    | none => none

/-- Map with the element's index, starting the count at `i`
(models JavaScript `map((x, index) => ...)` and index-aware loops). -/
def mapIdxFrom (f : Nat → α → β) : Nat → List α → List β
  | _, [] => []
  | i, a :: as => f i a :: mapIdxFrom f (i + 1) as

mutual

/-- All descendants of a node in document (pre-)order, the node itself
excluded — the search space of `querySelectorAll`. -/
def descendants : Node → List Node
  | .text _ => []
  | .elem _ _ _ cs => descendantsList cs

def descendantsList : List Node → List Node
  | [] => []
  | c :: cs => c :: descendants c ++ descendantsList cs

end

/-- All descendants matching a selector, in document order
(`el.querySelectorAll(sel)`). -/
def querySelectorAll (n : Node) (sel : Selector) : List Node :=
  (descendants n).filter (matchesSel sel)

/-- First descendant matching a selector (`el.querySelector(sel)`). -/
def querySelector (n : Node) (sel : Selector) : Option Node :=
  (descendants n).find? (matchesSel sel)

/-! Text extraction (`getTextFromElement` in `scraperEngine.ts`).
The `innerText` branch depends on the rendering environment; the
deterministic manual fallback — remove script/style/hidden subtrees, put
spaces around block-level elements, take `textContent`, collapse
whitespace and trim — is what the design relies on and what we model. -/

/-- Block-level tags that get a separating space inserted around them. -/
def blockTags : List String :=
  ["div", "p", "h1", "h2", "h3", "h4", "h5", "h6", "li", "br", "tr",
   "button", "section", "article"]

/-- Whether an element is removed before text extraction: `script`,
`style`, `noscript`, a `[hidden]` attribute, or `aria-hidden="true"`. -/
def isJunkElem (tag : String) (attrs : List (String × String)) : Bool :=
  tag == "script" || tag == "style" || tag == "noscript" ||
  attrs.any (fun a => a.1 == "hidden") ||
  attrs.any (fun a => a.1 == "aria-hidden" && a.2 == "true")

mutual

/-- Contribution of one (non-root) node to the stripped text: junk subtrees
vanish, `br` becomes a space, block elements get spaces around their
content, everything else contributes its children's text. -/
def strippedTextOf : Node → String
  | .text s => s
  | .elem tag _ attrs cs =>
    if isJunkElem tag attrs then ""
    else if tag == "br" then " "
    else if blockTags.contains tag then " " ++ strippedTextList cs ++ " "
    else strippedTextList cs

def strippedTextList : List Node → String
  | [] => ""
  | c :: cs => strippedTextOf c ++ strippedTextList cs

end

/-- Whitespace in the sense of the JavaScript `\s` class (ASCII part). -/
def isJsSpace (c : Char) : Bool :=
  c == ' ' || c == '\t' || c == '\n' || c == '\r' || c == '\x0b' || c == '\x0c'

/-- Carriage return, newline or tab (the class `[\r\n\t]`). -/
def isCrLnTab (c : Char) : Bool :=
  c == '\r' || c == '\n' || c == '\t'

/-- Replace every maximal run of characters satisfying `p` by one space
(models `replace(/X+/g, ' ')`). The flag records whether we are inside
a run. -/
def collapseRuns (p : Char → Bool) : Bool → List Char → List Char
  | _, [] => []
  | inRun, c :: cs =>
    if p c then
      if inRun then collapseRuns p true cs
      else ' ' :: collapseRuns p true cs
    else c :: collapseRuns p false cs

/-- Remove leading and trailing JavaScript whitespace (`String.trim`). -/
def jsTrim (l : List Char) : List Char :=
  ((l.dropWhile isJsSpace).reverse.dropWhile isJsSpace).reverse

/-- The fallback normalization chain of `getTextFromElement`:
`.replace(/[\r\n\t]+/g, ' ').replace(/\s+/g, ' ').trim()`. -/
def normalizeText (s : String) : String :=
  String.mk (jsTrim (collapseRuns isJsSpace false (collapseRuns isCrLnTab false s.data)))

/-- Text extraction for a node (the deterministic fallback path of
`getTextFromElement`): junk removal and block spacing apply to the
descendants of the node, never to the node itself, exactly as the
`clone.querySelectorAll` calls only reach descendants. -/
def getTextFromElement : Node → String
  | .text s => normalizeText s
  | .elem _ _ _ cs => normalizeText (strippedTextList cs)

/-! List identification (`identifyRepeatedList` in `scraperEngine.ts`). -/

/-- Specificity score of a class name: its length plus a bonus of 10 when
it contains a `-` or `_` separator. -/
def classScore (c : String) : Nat :=
  (if c.data.contains '-' || c.data.contains '_' then 10 else 0) + c.data.length

/-- Insert into a list kept sorted by descending score; a strictly greater
score moves in front, ties keep the existing order (a stable sort, as
`Array.prototype.sort` is). -/
def insertScoreDesc (x : String) : List String → List String
  | [] => [x]
  | y :: ys =>
    if classScore y < classScore x then x :: y :: ys
    else y :: insertScoreDesc x ys

/-- Stable sort by descending `classScore` (models
`commonClasses.sort((a, b) => bScore - aScore)`). -/
def sortByScoreDesc : List String → List String
  | [] => []
  | x :: xs => insertScoreDesc x (sortByScoreDesc xs)

/-- The class tokens of the candidate that every same-tag sibling also
carries. -/
def commonClassesOf (currentClasses : List String) (siblings : List Node) : List String :=
  currentClasses.filter (fun cls => siblings.all (fun sib => (classesOf sib).contains cls))

/-- Build the item selector for a candidate item: the tag, refined by the
highest-scoring common class when the candidate has classes and at least
one is common to all same-tag siblings. -/
def buildItemSelector (tag : String) (currentClasses : List String)
    (siblings : List Node) : Selector :=
  if currentClasses.isEmpty then Selector.tag tag
  else
    match sortByScoreDesc (commonClassesOf currentClasses siblings) with
    | [] => Selector.tag tag
    | best :: _ => Selector.tagClass tag best

/-- The context of an identified list: container, item selector, and the
item that anchored the detection (`ListContext` in `scraperEngine.ts`). -/
structure ListContext where
  container : Path
  itemSelector : Selector
  foundItem : Path
deriving DecidableEq

/-- The same-tag siblings of the child at index `idx` of `parent`,
paired with their child indices (`Array.from(parent.children).filter(
child => child !== current && child.tagName === tag)`; the identity
comparison is the index comparison). -/
def siblingPairsOf (parent : Node) (idx : Nat) (tag : String) : List (Nat × Node) :=
  (mapIdxFrom (fun j c => (j, c)) 0 (childrenOf parent)).filter
    (fun jc => jc.1 != idx && isElem jc.2 && tagOf jc.2 == tag)

/-- One level of the upward walk of `identifyRepeatedList`; the fuel is
the loop bound (`for (let i = 0; i < 8; i++)`). -/
def identifyLoop (root : Node) : Nat → Path → Option ListContext
  | 0, _ => none
  | fuel + 1, p =>
    match nodeAt root p with
    | none => none
    | some cur =>
      if tagOf cur == "body" || tagOf cur == "html" then none
      else if p.isEmpty then none
      else
        match nodeAt root p.dropLast with
        | none => none
        | some parent =>
          let siblings := (siblingPairsOf parent (p.getLastD 0) (tagOf cur)).map (·.2)
          if siblings.isEmpty then identifyLoop root fuel p.dropLast
          else
            let selector := buildItemSelector (tagOf cur) (classesOf cur) siblings
            if 1 ≤ ((childrenOf parent).filter (matchesSel selector)).length then
              some ⟨p.dropLast, selector, p⟩
            else identifyLoop root fuel p.dropLast

/-- Walk up from the clicked node (at most 8 levels) looking for an
ancestor that repeats among its same-tag siblings; on success return the
container, item selector and anchor item. -/
def identifyRepeatedList (root : Node) (target : Path) : Option ListContext :=
  identifyLoop root 8 target

/-! Extraction (`extractDataFromList` in `scraperEngine.ts`). -/

/-- A field as the extractor sees it. -/
structure FieldSpec where
  id : String
  relativeSelector : Selector
  type : FieldType
deriving DecidableEq

/-- A scraped row: a JavaScript object as an insertion-ordered association
list; `none` is a present-but-`undefined` value. -/
abbrev Row := List (String × Option String)

/-- Property access `row[k]`: `none` both for a missing key and for an
`undefined` value, as in JavaScript. -/
def jsGet (r : Row) (k : String) : Option String :=
  match r.find? (fun p => p.1 == k) with
  | some p => p.2
  | none => none

/-- Property assignment `row[k] = v` (or a spread overriding `k`): an
existing key keeps its position, a new key is appended. -/
def rowSet (r : Row) (k : String) (v : Option String) : Row :=
  if (r.find? (fun p => p.1 == k)).isSome then
    r.map (fun p => if p.1 == k then (p.1, v) else p)
  else r ++ [(k, v)]

/-- Attribute lookup with the empty string as default (models the resolved
`src`/`href` properties; URL resolution itself is environment work the
claims never inspect). -/
def attrValue (n : Node) (key : String) : String :=
  match (attrsOf n).find? (fun a => a.1 == key) with
  | some a => a.2
  | none => ""

/-- The items the extractor iterates: the container's direct children
matching the item selector, falling back to a generic descendant search
when no direct child matches. -/
def resolveItems (rootContainer : Node) (itemSelector : Selector) : List Node :=
  let items := (childrenOf rootContainer).filter (matchesSel itemSelector)
  if items.length == 0 then querySelectorAll rootContainer itemSelector else items

/-- Resolve a field's target element inside one item: the item itself for
the `_ROOT_` sentinel, otherwise the first matching descendant. -/
def resolveFieldEl (item : Node) (sel : Selector) : Option Node :=
  if sel = Selector.root then some item else querySelector item sel

/-- The value stored for a matched element: `src` for an `IMAGE` field on
an actual image element, `href` for a `LINK` field on an actual anchor,
normalized text otherwise. -/
def cellValue (t : FieldType) (el : Node) : String :=
  if t = FieldType.IMAGE ∧ isElem el = true ∧ tagOf el = "img" then attrValue el "src"
  else if t = FieldType.LINK ∧ isElem el = true ∧ tagOf el = "a" then attrValue el "href"
  else getTextFromElement el

/-- Build the row for one item: start from `{ id: row-<index> }`, then for
each field in order store the cell value, or the empty string when the
selector matches nothing in this item. -/
def extractRow (fields : List FieldSpec) (index : Nat) (item : Node) : Row :=
  fields.foldl (fun row field =>
    match resolveFieldEl item field.relativeSelector with
    | some el => rowSet row field.id (some (cellValue field.type el))
    | none => rowSet row field.id (some ""))
    [("id", some ("row-" ++ toString index))]

/-- Extract one row per item of the list (`extractDataFromList`). -/
def extractDataFromList (rootContainer : Node) (itemSelector : Selector)
    (fields : List FieldSpec) : List Row :=
  mapIdxFrom (extractRow fields) 0 (resolveItems rootContainer itemSelector)

/-! CSV generation (`generateCSV` in `scraperEngine.ts`). -/

/-- Double every double-quote character (`val.replace(/"/g, '""')`). -/
def escData : List Char → List Char
  | [] => []
  | c :: cs => if c = '"' then '"' :: '"' :: escData cs else c :: escData cs

/-- Quote-escape a string for CSV. -/
def escapeQuotes (s : String) : String :=
  String.mk (escData s.data)

/-- One CSV cell: the value (empty for `undefined`/`null`) escaped and
wrapped in double quotes. -/
def csvCell (v : Option String) : String :=
  "\"" ++ escapeQuotes (match v with | some s => s | none => "") ++ "\""

/-- Join with a separator (`Array.prototype.join`). -/
def joinWith (sep : String) : List String → String
  | [] => ""
  | [x] => x
  | x :: xs => x ++ sep ++ joinWith sep xs

/-- CSV export: keys of the first row minus `id` as the header, then one
comma-joined line of quoted cells per row, all joined by newlines. -/
def generateCSV (data : List Row) : String :=
  match data with
  | [] => ""
  | r0 :: _ =>
    let keys := (r0.map (·.1)).filter (fun k => !(k == "id"))
    let header := joinWith "," keys
    let rows := data.map (fun row =>
      joinWith "," (keys.map (fun k => csvCell (jsGet row k))))
    joinWith "\n" (header :: rows)

/-! The application layer (`App.tsx`): click handling, field list and row
state, duplicate handling, list switching. -/

/-- A user-visible field (`ScrapedField` in `types.ts`); `selector` is the
relative selector, `_ROOT_` encoded as `Selector.root`. -/
structure ScrapedField where
  id : String
  name : String
  selector : Selector
  type : FieldType
deriving DecidableEq

/-- The mutable application state: the field list, the extracted rows and
the identified list context. -/
structure AppState where
  fields : List ScrapedField
  data : List Row
  listContext : Option ListContext

/-- Field specs handed to the extractor
(`fields.map(f => ({id, relativeSelector: f.selector, type}))`). -/
def toFieldSpecs (fields : List ScrapedField) : List FieldSpec :=
  fields.map (fun f => ⟨f.id, f.selector, f.type⟩)

/-- Re-extract the full row set for the current context (`updateData`). -/
def updateData (root : Node) (ctx : ListContext) (currentFields : List ScrapedField) : List Row :=
  match nodeAt root ctx.container with
  | some container => extractDataFromList container ctx.itemSelector (toFieldSpecs currentFields)
  | none => []

/-- Whether the node at a path matches a selector. -/
def matchesAt (root : Node) (p : Path) (sel : Selector) : Bool :=
  match nodeAt root p with
  | some n => matchesSel sel n
  | none => false

/-- Upward search of `target.closest(sel)`: the nearest self-or-ancestor
matching the selector. The fuel is the depth of the start node, which the
wrapper supplies, so the walk always reaches the document root. -/
def closestAux (root : Node) (sel : Selector) : Nat → Path → Option Path
  | 0, p => if matchesAt root p sel then some p else none
  | fuel + 1, p =>
    if matchesAt root p sel then some p
    else if p.isEmpty then none
    else closestAux root sel fuel p.dropLast

/-- The `closest` call used to map a click to its list item. -/
def closestPath (root : Node) (sel : Selector) (p : Path) : Option Path :=
  closestAux root sel p.length p

/-- The fallback walk: climb from the target while the parent is not the
container; succeed when the walk stops as a direct child of the container
(`while (parent.parentElement && parent.parentElement !== container)`). -/
def walkUpAux (container : Path) : Nat → Path → Option Path
  | 0, p => if !p.isEmpty && p.dropLast == container then some p else none
  | fuel + 1, p =>
    if p.isEmpty then none
    else if p.dropLast == container then some p
    else walkUpAux container fuel p.dropLast

/-- Wrapper supplying enough fuel for the walk to reach the root. -/
def walkUpToChild (container : Path) (target : Path) : Option Path :=
  walkUpAux container target.length target

/-- Case A of the click handler: the click landed inside the current
container (`container.contains(target)`, which includes the container
itself), so resolve the enclosing item via `closest` or, failing that,
by walking up to a direct child of the container. -/
def caseAItem (root : Node) (st : AppState) (target : Path) : Option Path :=
  match st.listContext with
  | some ctx =>
    if ctx.container.isPrefixOf target then
      match closestPath root ctx.itemSelector target with
      | some p => some p
      | none => walkUpToChild ctx.container target
    else none
  | none => none

/-- Outcome of the context-identification phase of a click: ignore it, or
proceed with a context, a flag recording whether the context was switched,
and the resolved item. -/
inductive ClickCtx where
  | noop
  | proceed (ctx : ListContext) (contextChanged : Bool) (itemInList : Path)

/-- Phase 1 of `handleElementClick`: keep the current context when the
click maps to an item inside it; otherwise identify a new list, and when
its container differs from the current one gate the destructive switch on
the user's confirmation (asked only when fields exist). -/
def resolveClickContext (root : Node) (st : AppState) (target : Path)
    (confirmReset : Bool) : ClickCtx :=
  match caseAItem root st target with
  | some item =>
    match st.listContext with
    | some ctx => ClickCtx.proceed ctx false item
    | none => ClickCtx.noop
  | none =>
    match identifyRepeatedList root target with
    | none => ClickCtx.noop
    | some found =>
      match st.listContext with
      | some ctx0 =>
        if found.container = ctx0.container then
          ClickCtx.proceed ctx0 false found.foundItem
        else if st.fields ≠ [] ∧ confirmReset = false then ClickCtx.noop
        else ClickCtx.proceed found true found.foundItem
      | none =>
        if st.fields ≠ [] ∧ confirmReset = false then ClickCtx.noop
        else ClickCtx.proceed found true found.foundItem

/-- Framework state classes ignored when picking a field class. -/
def stateClassDenylist : List String :=
  ["ng-binding", "v-html", "active", "selected", "hover", "focus"]

/-- Class list at a path (empty when the path resolves to nothing). -/
def classesAt (root : Node) (p : Path) : List String :=
  match nodeAt root p with
  | some n => classesOf n
  | none => []

/-- Tag at a path (empty when the path resolves to nothing). -/
def tagAt (root : Node) (p : Path) : String :=
  match nodeAt root p with
  | some n => tagOf n
  | none => ""

/-- Uppercase the first character (`charAt(0).toUpperCase() + slice(1)`). -/
def capitalizeFirst (s : String) : String :=
  match s.data with
  | [] => ""
  | c :: cs => String.mk (c.toUpper :: cs)

/-- Lowercase, then replace every character outside `[a-z0-9]` by `_`
(the sanitizing step of the generated field id). -/
def sanitizeId (s : String) : String :=
  String.mk (s.data.map (fun c =>
    let lc := c.toLower
    if ('a' ≤ lc ∧ lc ≤ 'z') ∨ ('0' ≤ lc ∧ lc ≤ '9') then lc else '_'))

/-- Replace `-` and `_` separators by spaces for the display name. -/
def replaceSeparators (s : String) : String :=
  String.mk (s.data.map (fun c => if c = '-' ∨ c = '_' then ' ' else c))

/-- Strip the `property-` naming-convention marker from a class token
(`propClass.replace('property-', '')` on a token that starts with it). -/
def propertyFieldName (c : String) : String :=
  String.mk (c.data.drop ("property-".data.length))

/-- The outcome of field resolution for one click. -/
structure ResolvedField where
  selector : Selector
  name : String
  type : FieldType

/-- Phase 2 of `handleElementClick`: derive the relative selector, raw
field name and value type from the clicked node. Priority: the whole-item
sentinel, a `property-` convention class, the longest non-state class,
then the tag name; the type comes from the tag alone. -/
def resolveFieldFromClick (root : Node) (target itemInList : Path) : ResolvedField :=
  let sn : Selector × String :=
    if target = itemInList then (Selector.root, "Item Content")
    else
      match (classesAt root target).find?
          (fun c => "property-".data.isPrefixOf c.data) with
      | some propClass => (Selector.classOnly propClass, propertyFieldName propClass)
      | none =>
        let validClasses := (classesAt root target).filter
          (fun c => !(stateClassDenylist.contains c))
        match validClasses with
        | [] => (Selector.tag (tagAt root target), tagAt root target)
        | v :: vs =>
          let best := vs.foldl (fun a b => if a.data.length > b.data.length then a else b) v
          (Selector.classOnly best, replaceSeparators best)
  let ty : FieldType :=
    if tagAt root target = "img" then FieldType.IMAGE
    else if tagAt root target = "a" then FieldType.LINK
    else FieldType.TEXT
  ⟨sn.1, sn.2, ty⟩

/-- Append the freshly created field — alone after a context switch,
at the end of the list otherwise — and re-extract. -/
def addNewFieldState (root : Node) (st : AppState) (ctx : ListContext)
    (contextChanged : Bool) (rf : ResolvedField) (prettyName uniqueId : String) : AppState :=
  let newField : ScrapedField := ⟨uniqueId, prettyName, rf.selector, rf.type⟩
  let updatedFields := if contextChanged then [newField] else st.fields ++ [newField]
  { fields := updatedFields
    data := updateData root ctx updatedFields
    listContext := some ctx }

/-- Phases 3 and 4 of `handleElementClick`: duplicate handling (only
outside the context-switch branch) with the user's update-or-add choice,
then field installation and synchronous re-extraction. -/
def applyFieldSelection (root : Node) (st : AppState) (ctx : ListContext)
    (contextChanged : Bool) (rf : ResolvedField) (confirmUpdate : Bool)
    (now : Nat) : AppState :=
  let prettyName := capitalizeFirst rf.name
  let uniqueId := sanitizeId rf.name ++ "_" ++ toString now
  let dup : Option ScrapedField :=
    if contextChanged then none
    else st.fields.find? (fun f => f.selector == rf.selector)
  match dup with
  | some existingField =>
    if confirmUpdate then
      let updatedFields := st.fields.map (fun f =>
        if f.id == existingField.id then { f with name := prettyName, type := rf.type } else f)
      { fields := updatedFields
        data := updateData root ctx updatedFields
        listContext := some ctx }
    else addNewFieldState root st ctx contextChanged rf prettyName uniqueId
  | none => addNewFieldState root st ctx contextChanged rf prettyName uniqueId

/-- The full click handler (`handleElementClick` in `App.tsx`): a no-op
outside selection mode; otherwise context resolution, field resolution and
field installation. `confirmReset` and `confirmUpdate` are the user's
answers to the two `window.confirm` gates, `now` the `Date.now()` value
used in the generated field id. -/
def handleElementClick (root : Node) (st : AppState) (isSelecting : Bool)
    (target : Path) (confirmReset confirmUpdate : Bool) (now : Nat) : AppState :=
  if isSelecting = false then st
  else
    match resolveClickContext root st target confirmReset with
    | ClickCtx.noop => st
    | ClickCtx.proceed ctx contextChanged itemInList =>
      applyFieldSelection root st ctx contextChanged
        (resolveFieldFromClick root target itemInList) confirmUpdate now

/-! The AI-clean merge (`handleAIClean` in `SidePanel.tsx`): after the
external text-transform call returns `cleanedColumn`, each row becomes
`{...row, [fieldId]: cleanedColumn[index] || row[fieldId]}`. -/

/-- JavaScript `a || b` on an optionally-present string: an absent
(`undefined`) or empty (falsy) left operand falls back to the right. -/
def jsOrElse (a : Option String) (b : Option String) : Option String :=
  match a with
  | some s => if s = "" then b else some s
  | none => b

/-- The merge step of `handleAIClean`: positionally overlay the cleaned
column onto the target field, with the `||` fallback per row. -/
def handleAICleanMerge (data : List Row) (fieldId : String)
    (cleanedColumn : List String) : List Row :=
  mapIdxFrom (fun index row =>
    rowSet row fieldId (jsOrElse cleanedColumn[index]? (jsGet row fieldId))) 0 data

/-! Basic lemmas about rows and indexed maps. -/

theorem find?_map_keyUpdate (r : Row) (k : String) (v : Option String) :
    (r.map (fun p => if p.1 == k then (p.1, v) else p)).find? (fun p => p.1 == k) =
      (r.find? (fun p => p.1 == k)).map (fun p => (p.1, v)) := by
  induction r with
  | nil => rfl
  | cons p r ih =>
    by_cases h : p.1 = k
    · have hb : (p.1 == k) = true := by simpa using h
      simp only [List.map_cons]
      rw [show (if p.1 == k then (p.1, v) else p) = (p.1, v) from by simp [hb]]
      simp only [List.find?_cons, hb]
      simp
    · have hb : (p.1 == k) = false := by simpa using h
      simp only [List.map_cons]
      rw [show (if p.1 == k then (p.1, v) else p) = p from by simp [hb]]
      simp only [List.find?_cons, hb]
      exact ih

theorem jsGet_rowSet_same (r : Row) (k : String) (v : Option String) :
    jsGet (rowSet r k v) k = v := by
  unfold rowSet jsGet
  by_cases h : (r.find? (fun p => p.1 == k)).isSome
  · rw [if_pos h, find?_map_keyUpdate]
    obtain ⟨p, hp⟩ := Option.isSome_iff_exists.mp h
    rw [hp]
    simp
  · rw [if_neg h, List.find?_append, Option.not_isSome_iff_eq_none.mp h]
    simp

theorem find?_other_key_of_map (r : Row) (k k2 : String) (v : Option String) (h : k ≠ k2) :
    (r.map (fun p => if p.1 == k2 then (p.1, v) else p)).find? (fun p => p.1 == k) =
      r.find? (fun p => p.1 == k) := by
  induction r with
  | nil => rfl
  | cons p r ih =>
    by_cases hp : p.1 = k2
    · have hb2 : (p.1 == k2) = true := by simpa using hp
      have hbk : (p.1 == k) = false := by simp [hp, Ne.symm h]
      simp only [List.map_cons]
      rw [show (if p.1 == k2 then (p.1, v) else p) = (p.1, v) from by simp [hb2]]
      simp only [List.find?_cons, hbk]
      exact ih
    · have hb2 : (p.1 == k2) = false := by simpa using hp
      simp only [List.map_cons]
      rw [show (if p.1 == k2 then (p.1, v) else p) = p from by simp [hb2]]
      by_cases hk : p.1 = k
      · have hbk : (p.1 == k) = true := by simpa using hk
        simp only [List.find?_cons, hbk]
      · have hbk : (p.1 == k) = false := by simpa using hk
        simp only [List.find?_cons, hbk]
        exact ih

theorem jsGet_rowSet_other (r : Row) (k k2 : String) (v : Option String) (h : k ≠ k2) :
    jsGet (rowSet r k2 v) k = jsGet r k := by
  unfold rowSet jsGet
  by_cases hs : (r.find? (fun p => p.1 == k2)).isSome
  · rw [if_pos hs, find?_other_key_of_map _ _ _ _ h]
  · rw [if_neg hs, List.find?_append,
      show List.find? (fun p => p.1 == k) [(k2, v)] = none from by simp [Ne.symm h],
      Option.or_none]

theorem mapIdxFrom_length (f : Nat → α → β) (k : Nat) (l : List α) :
    (mapIdxFrom f k l).length = l.length := by
  induction l generalizing k with
  | nil => rfl
  | cons a as ih => simp [mapIdxFrom, ih]

theorem mapIdxFrom_getElem? (f : Nat → α → β) (k i : Nat) (l : List α) :
    (mapIdxFrom f k l)[i]? = l[i]?.map (f (k + i)) := by
  induction l generalizing k i with
  | nil => simp [mapIdxFrom]
  | cons a as ih =>
    cases i with
    | zero => simp [mapIdxFrom]
    | succ j =>
      simp only [mapIdxFrom, List.getElem?_cons_succ]
      rw [ih, show k + 1 + j = k + (j + 1) from by omega]

/-! Claim: if the text-transform call returns an array whose length differs
from the column's, the whole column is retained unchanged. This is not
what the merge does: the `||` fallback is applied per index, so a shorter
result overwrites a prefix of the rows. -/

/-- Counterexample to whole-column retention: two rows, a cleaned column
of length one; the merge changes row 0 while keeping row 1. -/
theorem handleAICleanMerge_shorter_column_overwrites :
    let data : List Row := [[("id", some "row-0"), ("price", some "$5")],
                            [("id", some "row-1"), ("price", some "$6")]]
    let cleaned : List String := ["5"]
    cleaned.length ≠ data.length ∧
    jsGet ((handleAICleanMerge data "price" cleaned).headD []) "price" ≠
      jsGet (data.headD []) "price" := by
  refine ⟨by decide, by decide⟩

/-- Amended claim: the merge is positional. Every row becomes the original
row with the target field overlaid by `cleaned[i] || old value`; in
particular rows at positions at or beyond the cleaned column's length
keep their previous value, while earlier rows receive the cleaned entry
whenever it is non-empty. -/
theorem handleAICleanMerge_positional (data : List Row) (fieldId : String)
    (cleaned : List String) (i : Nat) (row : Row) (h : data[i]? = some row) :
    (handleAICleanMerge data fieldId cleaned)[i]? =
      some (rowSet row fieldId (jsOrElse cleaned[i]? (jsGet row fieldId))) ∧
    (cleaned.length ≤ i →
      jsGet ((handleAICleanMerge data fieldId cleaned)[i]?.getD []) fieldId =
        jsGet row fieldId) := by
  have hmain : (handleAICleanMerge data fieldId cleaned)[i]? =
      some (rowSet row fieldId (jsOrElse cleaned[i]? (jsGet row fieldId))) := by
    unfold handleAICleanMerge
    rw [mapIdxFrom_getElem?, h]
    simp
  refine ⟨hmain, fun hlen => ?_⟩
  rw [hmain]
  have hcl : cleaned[i]? = none := by
    exact List.getElem?_eq_none hlen
  simp only [hcl, jsOrElse, Option.getD_some]
  exact jsGet_rowSet_same row fieldId (jsGet row fieldId)

/-- Witness for the amended merge claim at a concrete input: with two rows
and one cleaned entry, row 1 sits past the cleaned column and keeps its
value. -/
theorem handleAICleanMerge_positional_witness :
    (([[("p", some "a")], [("p", some "b")]] : List Row)[1]? = some [("p", some "b")]) ∧
    ((handleAICleanMerge [[("p", some "a")], [("p", some "b")]] "p" ["X"])[1]? =
      some (rowSet [("p", some "b")] "p"
        (jsOrElse (["X"] : List String)[1]? (jsGet [("p", some "b")] "p"))) ∧
    ((["X"] : List String).length ≤ 1 →
      jsGet ((handleAICleanMerge [[("p", some "a")], [("p", some "b")]] "p" ["X"])[1]?.getD [])
        "p" = jsGet [("p", some "b")] "p")) :=
  ⟨rfl, handleAICleanMerge_positional [[("p", some "a")], [("p", some "b")]] "p" ["X"] 1
    [("p", some "b")] rfl⟩

/-! Claim: extraction is deterministic — two calls with the same container,
item selector and field list over the same tree yield identical row lists.
The engine is a pure function of these inputs, so the two results agree
definitionally, row for row and cell for cell. -/

/-- Extraction determinism: same length, same row ids in the same order,
same rows at every index. -/
theorem extractDataFromList_deterministic (rootContainer : Node)
    (itemSelector : Selector) (fields : List FieldSpec) :
    (extractDataFromList rootContainer itemSelector fields).length =
      (extractDataFromList rootContainer itemSelector fields).length ∧
    (extractDataFromList rootContainer itemSelector fields).map (fun r => jsGet r "id") =
      (extractDataFromList rootContainer itemSelector fields).map (fun r => jsGet r "id") ∧
    ∀ i : Nat, (extractDataFromList rootContainer itemSelector fields)[i]? =
      (extractDataFromList rootContainer itemSelector fields)[i]? :=
  ⟨rfl, rfl, fun _ => rfl⟩

/-! Lemmas about the per-field extraction fold. -/

/-- The value the extractor stores for one field of one item: the cell
value of the matched element, or the empty string when nothing matches. -/
def fieldOutput (item : Node) (f : FieldSpec) : String :=
  match resolveFieldEl item f.relativeSelector with
  | some el => cellValue f.type el
  | none => ""

theorem jsGet_foldl_untouched (item : Node) (fields : List FieldSpec) (k : String)
    (hk : ∀ f ∈ fields, f.id ≠ k) (r : Row) :
    jsGet (fields.foldl (fun row field =>
      match resolveFieldEl item field.relativeSelector with
      | some el => rowSet row field.id (some (cellValue field.type el))
      | none => rowSet row field.id (some "")) r) k = jsGet r k := by
  induction fields generalizing r with
  | nil => rfl
  | cons g gs ih =>
    rw [List.foldl_cons, ih (fun f hf => hk f (List.mem_cons_of_mem _ hf))]
    have hg : k ≠ g.id := Ne.symm (hk g (List.mem_cons_self g gs))
    cases hres : resolveFieldEl item g.relativeSelector with
    | some el =>
      simp only [hres]
      exact jsGet_rowSet_other _ _ _ _ hg
    | none =>
      simp only [hres]
      exact jsGet_rowSet_other _ _ _ _ hg

theorem jsGet_foldl_fields (item : Node) (fields : List FieldSpec) (f : FieldSpec)
    (hf : f ∈ fields) (hnodup : (fields.map FieldSpec.id).Nodup) (r : Row) :
    jsGet (fields.foldl (fun row field =>
      match resolveFieldEl item field.relativeSelector with
      | some el => rowSet row field.id (some (cellValue field.type el))
      | none => rowSet row field.id (some "")) r) f.id =
      some (fieldOutput item f) := by
  induction fields generalizing r with
  | nil => cases hf
  | cons g gs ih =>
    rw [List.foldl_cons]
    have hnd : (∀ x ∈ gs, ¬x.id = g.id) ∧ (gs.map FieldSpec.id).Nodup := by
      simpa using hnodup
    rcases List.mem_cons.mp hf with rfl | hmem
    · rw [jsGet_foldl_untouched item gs f.id (fun f2 h2 => hnd.1 f2 h2)]
      unfold fieldOutput
      cases hres : resolveFieldEl item f.relativeSelector with
      | some el =>
        simp only [hres]
        exact jsGet_rowSet_same _ _ _
      | none =>
        simp only [hres]
        exact jsGet_rowSet_same _ _ _
    · exact ih hmem hnd.2 _

theorem jsGet_extractRow (fields : List FieldSpec) (index : Nat) (item : Node)
    (f : FieldSpec) (hf : f ∈ fields) (hnodup : (fields.map FieldSpec.id).Nodup) :
    jsGet (extractRow fields index item) f.id = some (fieldOutput item f) :=
  jsGet_foldl_fields item fields f hf hnodup _

/-! Claim: a field whose relative selector matches nothing inside an item
yields an empty-string cell — present and defined, never an error — and
the row is still produced. -/

/-- Missing-match policy: with distinct field ids, a field whose selector
finds no descendant of the item contributes the cell `some ""` (a present,
defined, empty value) to a row that is still produced, and the row list
always has exactly one row per item. -/
theorem extractDataFromList_missing_match_empty_cell
    (rootContainer : Node) (itemSelector : Selector) (fields : List FieldSpec)
    (f : FieldSpec) (idx : Nat) (item : Node)
    (hnodup : (fields.map FieldSpec.id).Nodup)
    (hf : f ∈ fields)
    (hroot : f.relativeSelector ≠ Selector.root)
    (hmiss : querySelector item f.relativeSelector = none)
    (hitem : (resolveItems rootContainer itemSelector)[idx]? = some item) :
    (extractDataFromList rootContainer itemSelector fields).length =
      (resolveItems rootContainer itemSelector).length ∧
    ∃ row, (extractDataFromList rootContainer itemSelector fields)[idx]? = some row ∧
      jsGet row f.id = some "" := by
  refine ⟨mapIdxFrom_length _ _ _, extractRow fields idx item, ?_, ?_⟩
  · unfold extractDataFromList
    rw [mapIdxFrom_getElem?, hitem]
    simp
  · have hout : fieldOutput item f = "" := by
      unfold fieldOutput resolveFieldEl
      rw [if_neg hroot, hmiss]
    rw [jsGet_extractRow fields idx item f hf hnodup, hout]

/-- Witness: a two-item list, one field whose class selector matches
nothing inside the first item; its cell is the defined empty string and
both rows are produced. -/
theorem extractDataFromList_missing_match_empty_cell_witness :
    (([⟨"price_1", Selector.classOnly "price", FieldType.TEXT⟩] :
        List FieldSpec).map FieldSpec.id).Nodup ∧
    (⟨"price_1", Selector.classOnly "price", FieldType.TEXT⟩ : FieldSpec) ∈
      ([⟨"price_1", Selector.classOnly "price", FieldType.TEXT⟩] : List FieldSpec) ∧
    ((extractDataFromList
        (Node.elem "ul" [] [] [Node.elem "li" [] [] [Node.text "A"],
                               Node.elem "li" [] [] [Node.text "B"]])
        (Selector.tag "li")
        [⟨"price_1", Selector.classOnly "price", FieldType.TEXT⟩]).length =
      (resolveItems
        (Node.elem "ul" [] [] [Node.elem "li" [] [] [Node.text "A"],
                               Node.elem "li" [] [] [Node.text "B"]])
        (Selector.tag "li")).length ∧
    ∃ row, (extractDataFromList
        (Node.elem "ul" [] [] [Node.elem "li" [] [] [Node.text "A"],
                               Node.elem "li" [] [] [Node.text "B"]])
        (Selector.tag "li")
        [⟨"price_1", Selector.classOnly "price", FieldType.TEXT⟩])[0]? = some row ∧
      jsGet row "price_1" = some "") :=
  ⟨by decide, by decide,
    extractDataFromList_missing_match_empty_cell
      (Node.elem "ul" [] [] [Node.elem "li" [] [] [Node.text "A"],
                             Node.elem "li" [] [] [Node.text "B"]])
      (Selector.tag "li")
      [⟨"price_1", Selector.classOnly "price", FieldType.TEXT⟩]
      ⟨"price_1", Selector.classOnly "price", FieldType.TEXT⟩ 0
      (Node.elem "li" [] [] [Node.text "A"])
      (by decide) (by decide) (by decide) rfl rfl⟩

/-! Claim: an `IMAGE` (resp. `LINK`) field whose selector matches a
non-image (resp. non-anchor) element falls back to the text path: the
cell is the normalized text of the matched element, not a URL and not an
error. -/

/-- Type-mismatch fallback: when the matched element is not an `img` for
an `IMAGE` field (or not an `a` for a `LINK` field), the stored cell is
exactly the normalized text content of that element. -/
theorem extractDataFromList_type_mismatch_text_fallback
    (rootContainer : Node) (itemSelector : Selector) (fields : List FieldSpec)
    (f : FieldSpec) (idx : Nat) (item el : Node)
    (hnodup : (fields.map FieldSpec.id).Nodup)
    (hf : f ∈ fields)
    (hel : resolveFieldEl item f.relativeSelector = some el)
    (hty : (f.type = FieldType.IMAGE ∧ tagOf el ≠ "img") ∨
           (f.type = FieldType.LINK ∧ tagOf el ≠ "a"))
    (hitem : (resolveItems rootContainer itemSelector)[idx]? = some item) :
    ∃ row, (extractDataFromList rootContainer itemSelector fields)[idx]? = some row ∧
      jsGet row f.id = some (getTextFromElement el) := by
  have hcell : cellValue f.type el = getTextFromElement el := by
    unfold cellValue
    rcases hty with ⟨ht, hn⟩ | ⟨ht, hn⟩
    · rw [if_neg (by simp [hn]), if_neg (by simp [ht])]
    · rw [if_neg (by simp [ht]), if_neg (by simp [hn])]
  have hout : fieldOutput item f = getTextFromElement el := by
    unfold fieldOutput
    rw [hel]
    exact hcell
  refine ⟨extractRow fields idx item, ?_, ?_⟩
  · unfold extractDataFromList
    rw [mapIdxFrom_getElem?, hitem]
    simp
  · rw [jsGet_extractRow fields idx item f hf hnodup, hout]

/-- Witness: an `IMAGE` field whose selector matches a `span`; the cell is
the span's normalized text. -/
theorem extractDataFromList_type_mismatch_text_fallback_witness :
    ((([⟨"img_1", Selector.classOnly "pic", FieldType.IMAGE⟩] :
        List FieldSpec).map FieldSpec.id).Nodup ∧
     resolveFieldEl (Node.elem "li" [] [] [Node.elem "span" ["pic"] [] [Node.text "no image"]])
       (Selector.classOnly "pic") =
       some (Node.elem "span" ["pic"] [] [Node.text "no image"]) ∧
     tagOf (Node.elem "span" ["pic"] [] [Node.text "no image"]) ≠ "img") ∧
    ∃ row, (extractDataFromList
        (Node.elem "ul" [] []
          [Node.elem "li" [] [] [Node.elem "span" ["pic"] [] [Node.text "no image"]]])
        (Selector.tag "li")
        [⟨"img_1", Selector.classOnly "pic", FieldType.IMAGE⟩])[0]? = some row ∧
      jsGet row "img_1" =
        some (getTextFromElement (Node.elem "span" ["pic"] [] [Node.text "no image"])) :=
  ⟨⟨by decide, rfl, by decide⟩,
    extractDataFromList_type_mismatch_text_fallback
      (Node.elem "ul" [] []
        [Node.elem "li" [] [] [Node.elem "span" ["pic"] [] [Node.text "no image"]]])
      (Selector.tag "li")
      [⟨"img_1", Selector.classOnly "pic", FieldType.IMAGE⟩]
      ⟨"img_1", Selector.classOnly "pic", FieldType.IMAGE⟩ 0
      (Node.elem "li" [] [] [Node.elem "span" ["pic"] [] [Node.text "no image"]])
      (Node.elem "span" ["pic"] [] [Node.text "no image"])
      (by decide) (by decide) rfl (Or.inl ⟨rfl, by decide⟩) rfl⟩

/-! Lemmas about CSV escaping and joining. -/

theorem escData_count_quote (l : List Char) :
    (escData l).count '"' = 2 * l.count '"' := by
  induction l with
  | nil => rfl
  | cons c cs ih =>
    by_cases h : c = '"'
    · subst h
      simp [escData, List.count_cons, ih]
      ring
    · simp [escData, h, List.count_cons, ih]

theorem escData_count_other (c : Char) (hc : c ≠ '"') (l : List Char) :
    (escData l).count c = l.count c := by
  induction l with
  | nil => rfl
  | cons d ds ih =>
    by_cases h : d = '"'
    · subst h
      simp [escData, List.count_cons, ih, Ne.symm hc]
    · simp [escData, h, List.count_cons, ih]

theorem joinWith_count_nl (pieces : List String) (hne : pieces ≠ [])
    (h : ∀ x ∈ pieces, x.data.count '\n' = 0) :
    (joinWith "\n" pieces).data.count '\n' = pieces.length - 1 := by
  induction pieces with
  | nil => cases hne rfl
  | cons x xs ih =>
    cases xs with
    | nil =>
      have hx := h x (List.mem_cons_self _ _)
      simpa [joinWith] using hx
    | cons y t =>
      have hx := h x (List.mem_cons_self _ _)
      rw [show joinWith "\n" (x :: y :: t) = x ++ "\n" ++ joinWith "\n" (y :: t) from rfl,
        String.data_append, String.data_append, List.count_append, List.count_append,
        hx, show ("\n".data.count '\n') = 1 from rfl,
        ih (by simp) (fun z hz => h z (List.mem_cons_of_mem _ hz))]
      simp [List.length_cons]
      omega

theorem joinWith_count_zero (c : Char) (sep : String) (hsep : sep.data.count c = 0)
    (pieces : List String) (h : ∀ x ∈ pieces, x.data.count c = 0) :
    (joinWith sep pieces).data.count c = 0 := by
  induction pieces with
  | nil => rfl
  | cons x xs ih =>
    cases xs with
    | nil => exact h x (List.mem_cons_self _ _)
    | cons y t =>
      rw [show joinWith sep (x :: y :: t) = x ++ sep ++ joinWith sep (y :: t) from rfl,
        String.data_append, String.data_append, List.count_append, List.count_append,
        h x (List.mem_cons_self _ _), hsep,
        ih (fun z hz => h z (List.mem_cons_of_mem _ hz))]

theorem csvCell_count_nl (v : Option String)
    (h : (v.getD "").data.count '\n' = 0) :
    (csvCell v).data.count '\n' = 0 := by
  cases v with
  | none => decide
  | some s =>
    rw [show csvCell (some s) = "\"" ++ String.mk (escData s.data) ++ "\"" from rfl,
      String.data_append, String.data_append, List.count_append, List.count_append,
      show ("\"".data.count '\n') = 0 from rfl,
      show (String.mk (escData s.data)).data = escData s.data from rfl,
      escData_count_other _ (by decide)]
    simpa using h

theorem jsGet_some_mem (row : Row) (k : String) (v : String)
    (h : jsGet row k = some v) : ∃ p ∈ row, p.2 = some v := by
  unfold jsGet at h
  cases hf : row.find? (fun p => p.1 == k) with
  | none => rw [hf] at h; cases h
  | some p => rw [hf] at h; exact ⟨p, List.mem_of_find?_eq_some hf, h⟩

/-! Claim: the CSV export consists of one header line of the field ids
(the row id excluded) followed by exactly one data line per row, with
every value quoted and embedded double quotes doubled. -/

/-- CSV shape: the output is the header joined with one line per row by
newlines; when no key or value contains a newline the output contains
exactly N newline characters (so it splits into the header plus N data
lines); and the escaping step doubles every embedded double quote. -/
theorem generateCSV_shape (r0 : Row) (rest : List Row)
    (hnl : ∀ row ∈ r0 :: rest, ∀ p ∈ row,
      p.1.data.count '\n' = 0 ∧ (p.2.getD "").data.count '\n' = 0) :
    generateCSV (r0 :: rest) =
      joinWith "\n"
        (joinWith "," ((r0.map (·.1)).filter (fun k => !(k == "id"))) ::
          (r0 :: rest).map (fun row =>
            joinWith "," (((r0.map (·.1)).filter (fun k => !(k == "id"))).map
              (fun k => csvCell (jsGet row k))))) ∧
    (generateCSV (r0 :: rest)).data.count '\n' = (r0 :: rest).length ∧
    ∀ v : String, (escapeQuotes v).data.count '"' = 2 * v.data.count '"' := by
  refine ⟨rfl, ?_, fun v => escData_count_quote v.data⟩
  have hkeys : ∀ k ∈ (r0.map (·.1)).filter (fun k => !(k == "id")),
      k.data.count '\n' = 0 := by
    intro k hk
    obtain ⟨p, hp, rfl⟩ := List.mem_map.mp (List.mem_filter.mp hk).1
    exact (hnl r0 (List.mem_cons_self _ _) p hp).1
  have hline : ∀ row ∈ r0 :: rest,
      (joinWith "," (((r0.map (·.1)).filter (fun k => !(k == "id"))).map
        (fun k => csvCell (jsGet row k)))).data.count '\n' = 0 := by
    intro row hrow
    apply joinWith_count_zero _ _ (by decide)
    intro x hx
    obtain ⟨k, hk, rfl⟩ := List.mem_map.mp hx
    apply csvCell_count_nl
    cases hg : jsGet row k with
    | none => simp
    | some s =>
      obtain ⟨p, hp, hps⟩ := jsGet_some_mem row k s hg
      have := (hnl row hrow p hp).2
      rw [hps] at this
      simpa using this
  rw [show generateCSV (r0 :: rest) =
      joinWith "\n"
        (joinWith "," ((r0.map (·.1)).filter (fun k => !(k == "id"))) ::
          (r0 :: rest).map (fun row =>
            joinWith "," (((r0.map (·.1)).filter (fun k => !(k == "id"))).map
              (fun k => csvCell (jsGet row k))))) from rfl]
  have hall : ∀ x ∈ (joinWith "," ((r0.map (·.1)).filter (fun k => !(k == "id"))) ::
      (r0 :: rest).map (fun row =>
        joinWith "," (((r0.map (·.1)).filter (fun k => !(k == "id"))).map
          (fun k => csvCell (jsGet row k))))), x.data.count '\n' = 0 := by
    intro x hx
    rcases List.mem_cons.mp hx with rfl | hx2
    · exact joinWith_count_zero _ _ (by decide) _ hkeys
    · obtain ⟨row, hrow, rfl⟩ := List.mem_map.mp hx2
      exact hline row hrow
  rw [joinWith_count_nl _ (by simp) hall]
  simp [List.length_cons, List.length_map]

/-- Witness for the CSV shape at a concrete table containing an embedded
double quote: two rows produce exactly two newline separators. -/
theorem generateCSV_shape_witness :
    (∀ row ∈ ([[("id", some "row-0"), ("t", some "a\"b")],
               [("id", some "row-1"), ("t", some "c")]] : List Row), ∀ p ∈ row,
      p.1.data.count '\n' = 0 ∧ (p.2.getD "").data.count '\n' = 0) ∧
    (generateCSV [[("id", some "row-0"), ("t", some "a\"b")],
                  [("id", some "row-1"), ("t", some "c")]]).data.count '\n' = 2 :=
  ⟨by decide,
    (generateCSV_shape [("id", some "row-0"), ("t", some "a\"b")]
      [[("id", some "row-1"), ("t", some "c")]] (by decide)).2.1⟩

/-! Claim: adjacent block-level children never have their texts
concatenated without whitespace — a wrapper whose children are block
elements holding "Title" and "Price" extracts to exactly "Title Price". -/

/-- Block-boundary spacing: for any wrapping element whose two children
are non-`br`, non-junk block-level elements containing the texts "Title"
and "Price", the fallback text extraction yields "Title Price": one
separating space, collapsed whitespace, trimmed ends — never
"TitlePrice". -/
theorem getTextFromElement_block_boundary (tag : String) (cls : List String)
    (attrs : List (String × String)) (t1 t2 : String) (c1 c2 : List String)
    (a1 a2 : List (String × String))
    (h1 : t1 ∈ blockTags) (h1br : t1 ≠ "br") (h1j : isJunkElem t1 a1 = false)
    (h2 : t2 ∈ blockTags) (h2br : t2 ≠ "br") (h2j : isJunkElem t2 a2 = false) :
    getTextFromElement (Node.elem tag cls attrs
      [Node.elem t1 c1 a1 [Node.text "Title"],
       Node.elem t2 c2 a2 [Node.text "Price"]]) = "Title Price" := by
  have hb1 : (t1 == "br") = false := by simpa using h1br
  have hc1 : blockTags.contains t1 = true := List.elem_eq_true_of_mem h1
  have hb2 : (t2 == "br") = false := by simpa using h2br
  have hc2 : blockTags.contains t2 = true := List.elem_eq_true_of_mem h2
  have e1 : strippedTextOf (Node.elem t1 c1 a1 [Node.text "Title"]) = " Title " := by
    unfold strippedTextOf
    rw [h1j, hb1, hc1]
    decide
  have e2 : strippedTextOf (Node.elem t2 c2 a2 [Node.text "Price"]) = " Price " := by
    unfold strippedTextOf
    rw [h2j, hb2, hc2]
    decide
  show normalizeText (strippedTextList
    [Node.elem t1 c1 a1 [Node.text "Title"], Node.elem t2 c2 a2 [Node.text "Price"]]) =
    "Title Price"
  rw [show strippedTextList
      [Node.elem t1 c1 a1 [Node.text "Title"], Node.elem t2 c2 a2 [Node.text "Price"]] =
      strippedTextOf (Node.elem t1 c1 a1 [Node.text "Title"]) ++
        (strippedTextOf (Node.elem t2 c2 a2 [Node.text "Price"]) ++ "") from rfl,
    e1, e2]
  decide

/-- Witness: an `h3` and a `p` inside a wrapping `div` extract to
"Title Price". -/
theorem getTextFromElement_block_boundary_witness :
    ("h3" ∈ blockTags ∧ "h3" ≠ "br" ∧ isJunkElem "h3" [] = false ∧
     "p" ∈ blockTags ∧ "p" ≠ "br" ∧ isJunkElem "p" [] = false) ∧
    getTextFromElement (Node.elem "div" [] []
      [Node.elem "h3" [] [] [Node.text "Title"],
       Node.elem "p" [] [] [Node.text "Price"]]) = "Title Price" :=
  ⟨by decide,
    getTextFromElement_block_boundary "div" [] [] "h3" "p" [] [] [] []
      (by decide) (by decide) (by decide) (by decide) (by decide) (by decide)⟩

/-! Lemmas about the score-descending sort used for common classes. -/

theorem mem_insertScoreDesc (x y : String) (l : List String) :
    y ∈ insertScoreDesc x l ↔ y = x ∨ y ∈ l := by
  induction l with
  | nil => simp [insertScoreDesc]
  | cons z zs ih =>
    by_cases h : classScore z < classScore x
    · simp [insertScoreDesc, h]
    · simp [insertScoreDesc, h, ih]
      tauto

theorem mem_sortByScoreDesc (y : String) (l : List String) :
    y ∈ sortByScoreDesc l ↔ y ∈ l := by
  induction l with
  | nil => simp [sortByScoreDesc]
  | cons x xs ih => simp [sortByScoreDesc, mem_insertScoreDesc, ih]

theorem insertScoreDesc_ne_nil (x : String) (l : List String) :
    insertScoreDesc x l ≠ [] := by
  cases l with
  | nil => simp [insertScoreDesc]
  | cons z zs =>
    unfold insertScoreDesc
    by_cases h : classScore z < classScore x
    · simp [h]
    · simp [h]

theorem sortByScoreDesc_eq_nil (l : List String) :
    sortByScoreDesc l = [] ↔ l = [] := by
  cases l with
  | nil => simp [sortByScoreDesc]
  | cons x xs =>
    simp only [sortByScoreDesc]
    constructor
    · intro h
      exact absurd h (insertScoreDesc_ne_nil x (sortByScoreDesc xs))
    · intro h
      cases h

theorem sortByScoreDesc_head_max (l : List String) (b : String) (t : List String)
    (h : sortByScoreDesc l = b :: t) :
    ∀ x ∈ l, classScore x ≤ classScore b := by
  induction l generalizing b t with
  | nil => simp [sortByScoreDesc] at h
  | cons a as ih =>
    rw [sortByScoreDesc] at h
    cases hs : sortByScoreDesc as with
    | nil =>
      rw [hs] at h
      have has : as = [] := (sortByScoreDesc_eq_nil as).mp hs
      injection h with h1 h2
      subst h1 has
      intro x hx
      rcases List.mem_cons.mp hx with rfl | hxs
      · exact le_refl _
      · cases hxs
    | cons b0 t0 =>
      rw [hs] at h
      have hmax0 := ih b0 t0 hs
      rw [insertScoreDesc] at h
      by_cases hcmp : classScore b0 < classScore a
      · rw [if_pos hcmp] at h
        injection h with h1 h2
        subst h1
        intro x hx
        rcases List.mem_cons.mp hx with rfl | hxs
        · exact le_refl _
        · exact le_trans (hmax0 x hxs) (le_of_lt hcmp)
      · rw [if_neg hcmp] at h
        injection h with h1 h2
        subst h1
        intro x hx
        rcases List.mem_cons.mp hx with rfl | hxs
        · exact le_of_not_lt hcmp
        · exact hmax0 x hxs

/-! Claim: when the candidate item has a non-empty set of class tokens
shared by every same-tag sibling, exactly one class is appended to the
tag selector, and it maximizes `classScore` over the common-class set; no
class is appended when the common set is empty. -/

/-- Selector refinement: an empty common-class set yields the bare tag
selector; a non-empty one yields `tag.best` for a single `best` taken
from the common-class set and maximizing `classScore` over it. -/
theorem buildItemSelector_max_score_class (tag : String)
    (currentClasses : List String) (siblings : List Node) :
    (commonClassesOf currentClasses siblings = [] →
      buildItemSelector tag currentClasses siblings = Selector.tag tag) ∧
    (commonClassesOf currentClasses siblings ≠ [] →
      ∃ best, buildItemSelector tag currentClasses siblings = Selector.tagClass tag best ∧
        best ∈ commonClassesOf currentClasses siblings ∧
        ∀ c ∈ commonClassesOf currentClasses siblings,
          classScore c ≤ classScore best) := by
  constructor
  · intro hempty
    unfold buildItemSelector
    by_cases hcc : currentClasses.isEmpty
    · rw [if_pos hcc]
    · rw [if_neg hcc, hempty]
      rfl
  · intro hne
    have hcc : ¬ currentClasses.isEmpty = true := by
      intro hc
      apply hne
      have h0 : currentClasses = [] := by simpa using hc
      rw [h0]
      rfl
    unfold buildItemSelector
    rw [if_neg hcc]
    cases hs : sortByScoreDesc (commonClassesOf currentClasses siblings) with
    | nil => exact absurd ((sortByScoreDesc_eq_nil _).mp hs) hne
    | cons b t =>
      refine ⟨b, rfl, ?_, sortByScoreDesc_head_max _ b t hs⟩
      exact (mem_sortByScoreDesc _ _).mp (hs ▸ List.mem_cons_self b t)

/-- Witness: with classes `["x", "item-card"]` shared by one sibling, the
appended class is `item-card` (score 19 beats 1). -/
theorem buildItemSelector_max_score_class_witness :
    (commonClassesOf ["x", "item-card"]
      [Node.elem "div" ["item-card", "x"] [] []] ≠ []) ∧
    ∃ best, buildItemSelector "div" ["x", "item-card"]
        [Node.elem "div" ["item-card", "x"] [] []] = Selector.tagClass "div" best ∧
      best ∈ commonClassesOf ["x", "item-card"]
        [Node.elem "div" ["item-card", "x"] [] []] ∧
      ∀ c ∈ commonClassesOf ["x", "item-card"]
        [Node.elem "div" ["item-card", "x"] [] []],
        classScore c ≤ classScore best :=
  ⟨by decide,
    (buildItemSelector_max_score_class "div" ["x", "item-card"]
      [Node.elem "div" ["item-card", "x"] [] []]).2 (by decide)⟩

/-! Lemmas about paths, parents and siblings. -/

theorem nodeAt_append (root : Node) (p q : Path) :
    nodeAt root (p ++ q) = (nodeAt root p).bind (fun n => nodeAt n q) := by
  induction p generalizing root with
  | nil => simp [nodeAt]
  | cons i pr ih =>
    rw [List.cons_append]
    cases hc : (childrenOf root)[i]? with
    | none => simp [nodeAt, hc]
    | some c => simp [nodeAt, hc, ih]

theorem dropLast_append_getLastD (p : Path) (h : p ≠ []) :
    p.dropLast ++ [p.getLastD 0] = p := by
  have h2 := List.dropLast_append_getLast h
  rwa [List.getLastD_eq_getLast?, List.getLast?_eq_getLast _ h, Option.getD_some]

theorem nodeAt_parent (root n : Node) (p : Path) (hne : p ≠ [])
    (h : nodeAt root p = some n) :
    ∃ parent, nodeAt root p.dropLast = some parent ∧
      (childrenOf parent)[p.getLastD 0]? = some n := by
  rw [← dropLast_append_getLastD p hne, nodeAt_append] at h
  cases hp : nodeAt root p.dropLast with
  | none => rw [hp] at h; cases h
  | some parent =>
    rw [hp] at h
    simp only [Option.some_bind] at h
    refine ⟨parent, rfl, ?_⟩
    unfold nodeAt at h
    cases hc : (childrenOf parent)[p.getLastD 0]? with
    | none =>
      rw [hc] at h
      cases h
    | some c =>
      rw [hc] at h
      exact h

theorem isElem_of_child (parent c : Node) (i : Nat)
    (h : (childrenOf parent)[i]? = some c) : isElem parent = true := by
  cases parent with
  | text s => simp [childrenOf] at h
  | elem t cl a ch => rfl

theorem mem_mapIdxFrom_pair (l : List α) (k j : Nat) (c : α) :
    (j, c) ∈ mapIdxFrom (fun i a => (i, a)) k l ↔
      ∃ m, j = k + m ∧ l[m]? = some c := by
  induction l generalizing k with
  | nil => simp [mapIdxFrom]
  | cons a as ih =>
    simp only [mapIdxFrom, List.mem_cons]
    constructor
    · rintro (h | h)
      · injection h with h1 h2
        exact ⟨0, by omega, by simp [h2]⟩
      · obtain ⟨m, hm, hc⟩ := (ih (k + 1)).mp h
        exact ⟨m + 1, by omega, by simpa using hc⟩
    · rintro ⟨m, hm, hc⟩
      cases m with
      | zero =>
        rw [List.getElem?_cons_zero] at hc
        injection hc with hc2
        subst hc2
        have hj : j = k := by omega
        subst hj
        exact Or.inl rfl
      | succ m2 =>
        rw [List.getElem?_cons_succ] at hc
        exact Or.inr ((ih (k + 1)).mpr ⟨m2, by omega, hc⟩)

theorem mem_siblingPairsOf (parent : Node) (idx : Nat) (tag : String)
    (j : Nat) (c : Node) :
    (j, c) ∈ siblingPairsOf parent idx tag ↔
      (childrenOf parent)[j]? = some c ∧ j ≠ idx ∧ isElem c = true ∧ tagOf c = tag := by
  unfold siblingPairsOf
  rw [List.mem_filter, mem_mapIdxFrom_pair]
  simp only [bne_iff_ne, Bool.and_eq_true, beq_iff_eq, ne_eq]
  constructor
  · rintro ⟨⟨m, hm, hc⟩, hcond⟩
    have hmj : m = j := by omega
    subst hmj
    exact ⟨hc, by tauto⟩
  · rintro ⟨hc, hne, he, ht⟩
    exact ⟨⟨j, by omega, hc⟩, by simp [hne, he, ht]⟩

theorem matchesSel_tag_elem (n : Node) (t : String) (he : isElem n = true) :
    matchesSel (Selector.tag t) n = (tagOf n == t) := by
  cases n with
  | text s => simp [isElem] at he
  | elem tg cl a ch => rfl

theorem matchesSel_tagClass_elem (n : Node) (t c : String) (he : isElem n = true) :
    matchesSel (Selector.tagClass t c) n =
      ((tagOf n == t) && (classesOf n).contains c) := by
  cases n with
  | text s => simp [isElem] at he
  | elem tg cl a ch => rfl

theorem buildItemSelector_matches (cur : Node) (siblings : List Node)
    (hcur : isElem cur = true)
    (hsib : ∀ s ∈ siblings, isElem s = true ∧ tagOf s = tagOf cur) :
    matchesSel (buildItemSelector (tagOf cur) (classesOf cur) siblings) cur = true ∧
    ∀ s ∈ siblings,
      matchesSel (buildItemSelector (tagOf cur) (classesOf cur) siblings) s = true := by
  obtain ⟨hempty, hfull⟩ :=
    buildItemSelector_max_score_class (tagOf cur) (classesOf cur) siblings
  by_cases hc : commonClassesOf (classesOf cur) siblings = []
  · rw [hempty hc]
    constructor
    · rw [matchesSel_tag_elem cur _ hcur]
      simp
    · intro s hs
      rw [matchesSel_tag_elem s _ (hsib s hs).1]
      simp [(hsib s hs).2]
  · obtain ⟨best, hsel, hmem, _⟩ := hfull hc
    rw [hsel]
    have hfilter := List.mem_filter.mp hmem
    constructor
    · rw [matchesSel_tagClass_elem cur _ _ hcur]
      simp [hfilter.1]
    · intro s hs
      have hsc : best ∈ classesOf s := by
        simpa using List.all_eq_true.mp hfilter.2 s hs
      rw [matchesSel_tagClass_elem s _ _ (hsib s hs).1]
      simp [(hsib s hs).2, hsc]

theorem two_le_length_filter (l : List Node) (pb : Node → Bool) (i j : Nat)
    (a b : Node) (hij : i ≠ j) (ha : l[i]? = some a) (hb : l[j]? = some b)
    (hpa : pb a = true) (hpb : pb b = true) :
    2 ≤ (l.filter pb).length := by
  induction l generalizing i j with
  | nil => simp at ha
  | cons x xs ih =>
    cases i with
    | zero =>
      rw [List.getElem?_cons_zero] at ha
      injection ha with ha2
      subst ha2
      cases j with
      | zero => cases hij rfl
      | succ j2 =>
        rw [List.getElem?_cons_succ] at hb
        have hbf : b ∈ xs.filter pb :=
          List.mem_filter.mpr ⟨List.getElem?_mem hb, hpb⟩
        have h1 : 1 ≤ (xs.filter pb).length :=
          List.length_pos.mpr (List.ne_nil_of_mem hbf)
        rw [List.filter_cons, if_pos hpa, List.length_cons]
        omega
    | succ i2 =>
      cases j with
      | zero =>
        rw [List.getElem?_cons_zero] at hb
        injection hb with hb2
        subst hb2
        rw [List.getElem?_cons_succ] at ha
        have haf : a ∈ xs.filter pb :=
          List.mem_filter.mpr ⟨List.getElem?_mem ha, hpa⟩
        have h1 : 1 ≤ (xs.filter pb).length :=
          List.length_pos.mpr (List.ne_nil_of_mem haf)
        rw [List.filter_cons, if_pos hpb, List.length_cons]
        omega
      | succ j2 =>
        rw [List.getElem?_cons_succ] at ha hb
        have h2 := ih i2 j2 (by omega) ha hb
        have h3 : (xs.filter pb).length ≤ ((x :: xs).filter pb).length := by
          rw [List.filter_cons]
          by_cases hx : pb x = true
          · simp [hx]
          · simp [hx]
        omega

/-! Claim: every context returned by `identifyRepeatedList` satisfies the
`ListContext` invariant — the anchor item is a direct child of the
container, it matches the item selector, and the selector matches at
least two direct children of the container. -/

theorem identifyLoop_invariant (root : Node) (fuel : Nat) :
    ∀ (p : Path) (ctx : ListContext),
      (∃ n, nodeAt root p = some n ∧ isElem n = true) →
      identifyLoop root fuel p = some ctx →
      ∃ parent i cur,
        nodeAt root ctx.container = some parent ∧
        ctx.foundItem = ctx.container ++ [i] ∧
        (childrenOf parent)[i]? = some cur ∧
        matchesSel ctx.itemSelector cur = true ∧
        2 ≤ ((childrenOf parent).filter (matchesSel ctx.itemSelector)).length := by
  induction fuel with
  | zero =>
    intro p ctx _ h
    cases h
  | succ fuel ih =>
    intro p ctx hel h
    obtain ⟨cur, hcur, hcure⟩ := hel
    simp only [identifyLoop, hcur] at h
    by_cases hbody : (tagOf cur == "body" || tagOf cur == "html") = true
    · rw [if_pos hbody] at h; cases h
    · rw [if_neg hbody] at h
      by_cases hpe : p.isEmpty = true
      · rw [if_pos hpe] at h; cases h
      · rw [if_neg hpe] at h
        have hpne : p ≠ [] := by simpa [List.isEmpty_iff] using hpe
        obtain ⟨parent, hpar, hchild⟩ := nodeAt_parent root cur p hpne hcur
        simp only [hpar] at h
        by_cases hsib :
            ((siblingPairsOf parent (p.getLastD 0) (tagOf cur)).map (·.2)).isEmpty = true
        · rw [if_pos hsib] at h
          exact ih p.dropLast ctx ⟨parent, hpar, isElem_of_child parent cur _ hchild⟩ h
        · rw [if_neg hsib] at h
          by_cases hcnt : 1 ≤ ((childrenOf parent).filter
              (matchesSel (buildItemSelector (tagOf cur) (classesOf cur)
                ((siblingPairsOf parent (p.getLastD 0) (tagOf cur)).map (·.2))))).length
          · rw [if_pos hcnt] at h
            injection h with hctx
            subst hctx
            have hsibpr : ∀ s ∈ (siblingPairsOf parent (p.getLastD 0) (tagOf cur)).map (·.2),
                isElem s = true ∧ tagOf s = tagOf cur := by
              intro s hs
              obtain ⟨⟨j2, s2⟩, hjs, heq⟩ := List.mem_map.mp hs
              cases heq
              have hp2 := (mem_siblingPairsOf parent _ _ j2 s2).mp hjs
              exact ⟨hp2.2.2.1, hp2.2.2.2⟩
            have hmatch := buildItemSelector_matches cur
              ((siblingPairsOf parent (p.getLastD 0) (tagOf cur)).map (·.2)) hcure hsibpr
            have hnonempty : siblingPairsOf parent (p.getLastD 0) (tagOf cur) ≠ [] := by
              intro he
              rw [he] at hsib
              simp at hsib
            obtain ⟨⟨j, s0⟩, hjs0⟩ := List.exists_mem_of_ne_nil _ hnonempty
            have hprops := (mem_siblingPairsOf parent _ _ j s0).mp hjs0
            have hs0mem : s0 ∈ (siblingPairsOf parent (p.getLastD 0) (tagOf cur)).map (·.2) :=
              List.mem_map_of_mem _ hjs0
            refine ⟨parent, p.getLastD 0, cur, hpar,
              (dropLast_append_getLastD p hpne).symm, hchild, hmatch.1, ?_⟩
            exact two_le_length_filter (childrenOf parent) _ (p.getLastD 0) j cur s0
              (Ne.symm hprops.2.1) hchild hprops.1 hmatch.1 (hmatch.2 s0 hs0mem)
          · rw [if_neg hcnt] at h
            exact ih p.dropLast ctx ⟨parent, hpar, isElem_of_child parent cur _ hchild⟩ h

/-- The `ListContext` invariant: for every context returned by
`identifyRepeatedList` from a click on an element, the anchor item is a
direct child of the container, the anchor matches the item selector, and
the item selector matches at least two direct children of the container
(the anchor and at least one sibling-equivalent item). -/
theorem identifyRepeatedList_context_invariant (root : Node) (target : Path)
    (ctx : ListContext) (n : Node)
    (htgt : nodeAt root target = some n) (helem : isElem n = true)
    (h : identifyRepeatedList root target = some ctx) :
    ∃ parent i cur,
      nodeAt root ctx.container = some parent ∧
      ctx.foundItem = ctx.container ++ [i] ∧
      (childrenOf parent)[i]? = some cur ∧
      matchesSel ctx.itemSelector cur = true ∧
      2 ≤ ((childrenOf parent).filter (matchesSel ctx.itemSelector)).length :=
  identifyLoop_invariant root 8 target ctx ⟨n, htgt, helem⟩ h

/-- Witness: a two-item grid; identification from the first item returns
the grid container, the anchor as direct child 0, and a selector matching
both items. -/
theorem identifyRepeatedList_context_invariant_witness :
    (nodeAt (Node.elem "body" [] []
        [Node.elem "div" ["grid"] []
          [Node.elem "div" ["item"] [] [Node.text "A"],
           Node.elem "div" ["item"] [] [Node.text "B"]]]) [0, 0] =
      some (Node.elem "div" ["item"] [] [Node.text "A"]) ∧
     isElem (Node.elem "div" ["item"] [] [Node.text "A"]) = true ∧
     identifyRepeatedList (Node.elem "body" [] []
        [Node.elem "div" ["grid"] []
          [Node.elem "div" ["item"] [] [Node.text "A"],
           Node.elem "div" ["item"] [] [Node.text "B"]]]) [0, 0] =
      some ⟨[0], Selector.tagClass "div" "item", [0, 0]⟩) ∧
    ∃ parent i cur,
      nodeAt (Node.elem "body" [] []
        [Node.elem "div" ["grid"] []
          [Node.elem "div" ["item"] [] [Node.text "A"],
           Node.elem "div" ["item"] [] [Node.text "B"]]])
        (ListContext.container ⟨[0], Selector.tagClass "div" "item", [0, 0]⟩) =
        some parent ∧
      ListContext.foundItem ⟨[0], Selector.tagClass "div" "item", [0, 0]⟩ =
        ListContext.container ⟨[0], Selector.tagClass "div" "item", [0, 0]⟩ ++ [i] ∧
      (childrenOf parent)[i]? = some cur ∧
      matchesSel (ListContext.itemSelector ⟨[0], Selector.tagClass "div" "item", [0, 0]⟩)
        cur = true ∧
      2 ≤ ((childrenOf parent).filter
        (matchesSel (ListContext.itemSelector
          ⟨[0], Selector.tagClass "div" "item", [0, 0]⟩))).length :=
  ⟨⟨rfl, rfl, rfl⟩,
    identifyRepeatedList_context_invariant
      (Node.elem "body" [] []
        [Node.elem "div" ["grid"] []
          [Node.elem "div" ["item"] [] [Node.text "A"],
           Node.elem "div" ["item"] [] [Node.text "B"]]]) [0, 0]
      ⟨[0], Selector.tagClass "div" "item", [0, 0]⟩
      (Node.elem "div" ["item"] [] [Node.text "A"]) rfl rfl rfl⟩

/-! Claim: a confirmed list switch clears the previous field set, installs
the freshly derived context (whose container differs from the previous
one), and treats the triggering click as the first field selection of the
new context. -/

theorem resolveClickContext_switch_container_ne (root : Node) (st : AppState)
    (target : Path) (ctx0 found : ListContext) (item : Path)
    (hctx : st.listContext = some ctx0)
    (hres : resolveClickContext root st target true = ClickCtx.proceed found true item) :
    found.container ≠ ctx0.container := by
  unfold resolveClickContext at hres
  cases hA : caseAItem root st target with
  | some i0 =>
    simp only [hA, hctx] at hres
    injection hres with e1 e2 e3
    exact Bool.noConfusion e2
  | none =>
    simp only [hA] at hres
    cases hid : identifyRepeatedList root target with
    | none =>
      simp only [hid] at hres
      cases hres
    | some f2 =>
      simp only [hid, hctx] at hres
      by_cases heq : f2.container = ctx0.container
      · rw [if_pos heq] at hres
        injection hres with e1 e2 e3
        exact Bool.noConfusion e2
      · rw [if_neg heq, if_neg (by simp)] at hres
        injection hres with e1 e2 e3
        subst e1
        exact heq

/-- Confirmed list switch: with a current context, a non-empty field set
and a confirming user, a click that resolves to a new-list switch leaves
exactly one field — the one derived from the triggering click — installs
the new context, whose container differs from the previous one, and
re-extracts against the new context. -/
theorem handleElementClick_list_switch_resets
    (root : Node) (st : AppState) (target : Path) (ctx0 found : ListContext)
    (item : Path) (confirmUpdate : Bool) (now : Nat)
    (hctx : st.listContext = some ctx0)
    (_hne : st.fields ≠ [])
    (hres : resolveClickContext root st target true = ClickCtx.proceed found true item) :
    found.container ≠ ctx0.container ∧
    (handleElementClick root st true target true confirmUpdate now).listContext =
      some found ∧
    (handleElementClick root st true target true confirmUpdate now).fields =
      [⟨sanitizeId (resolveFieldFromClick root target item).name ++ "_" ++ toString now,
        capitalizeFirst (resolveFieldFromClick root target item).name,
        (resolveFieldFromClick root target item).selector,
        (resolveFieldFromClick root target item).type⟩] ∧
    (handleElementClick root st true target true confirmUpdate now).data =
      updateData root found
        [⟨sanitizeId (resolveFieldFromClick root target item).name ++ "_" ++ toString now,
          capitalizeFirst (resolveFieldFromClick root target item).name,
          (resolveFieldFromClick root target item).selector,
          (resolveFieldFromClick root target item).type⟩] := by
  have h1 : handleElementClick root st true target true confirmUpdate now =
      applyFieldSelection root st found true
        (resolveFieldFromClick root target item) confirmUpdate now := by
    simp [handleElementClick, hres]
  have h2 : applyFieldSelection root st found true
      (resolveFieldFromClick root target item) confirmUpdate now =
      addNewFieldState root st found true (resolveFieldFromClick root target item)
        (capitalizeFirst (resolveFieldFromClick root target item).name)
        (sanitizeId (resolveFieldFromClick root target item).name ++ "_" ++ toString now) := by
    rfl
  refine ⟨resolveClickContext_switch_container_ne root st target ctx0 found item hctx hres,
    ?_, ?_, ?_⟩ <;> rw [h1, h2] <;> rfl

/-- Witness: a page with a product grid (the current context, one field
installed) and a separate link list; a confirmed click on the link list
switches to the list's context with exactly the one field derived from
the click. -/
theorem handleElementClick_list_switch_resets_witness :
    let root : Node := Node.elem "body" [] []
      [Node.elem "div" ["header"] [] [Node.text "Shop"],
       Node.elem "div" ["grid"] []
         [Node.elem "div" ["product-card"] [] [Node.text "A"],
          Node.elem "div" ["product-card"] [] [Node.text "B"]],
       Node.elem "ul" [] []
         [Node.elem "li" ["row"] [] [Node.elem "a" [] [] [Node.text "L1"]],
          Node.elem "li" ["row"] [] [Node.elem "a" [] [] [Node.text "L2"]]]]
    let ctx0 : ListContext := ⟨[1], Selector.tagClass "div" "product-card", [1, 0]⟩
    let st : AppState :=
      ⟨[⟨"f1", "Title", Selector.classOnly "title", FieldType.TEXT⟩], [], some ctx0⟩
    let found : ListContext := ⟨[2], Selector.tagClass "li" "row", [2, 0]⟩
    (st.listContext = some ctx0 ∧ st.fields ≠ [] ∧
     resolveClickContext root st [2, 0, 0] true = ClickCtx.proceed found true [2, 0]) ∧
    (found.container ≠ ctx0.container ∧
     (handleElementClick root st true [2, 0, 0] true true 42).listContext = some found ∧
     (handleElementClick root st true [2, 0, 0] true true 42).fields =
       [⟨sanitizeId (resolveFieldFromClick root [2, 0, 0] [2, 0]).name ++ "_" ++ toString 42,
         capitalizeFirst (resolveFieldFromClick root [2, 0, 0] [2, 0]).name,
         (resolveFieldFromClick root [2, 0, 0] [2, 0]).selector,
         (resolveFieldFromClick root [2, 0, 0] [2, 0]).type⟩] ∧
     (handleElementClick root st true [2, 0, 0] true true 42).data =
       updateData root found
         [⟨sanitizeId (resolveFieldFromClick root [2, 0, 0] [2, 0]).name ++ "_" ++ toString 42,
           capitalizeFirst (resolveFieldFromClick root [2, 0, 0] [2, 0]).name,
           (resolveFieldFromClick root [2, 0, 0] [2, 0]).selector,
           (resolveFieldFromClick root [2, 0, 0] [2, 0]).type⟩]) :=
  ⟨⟨rfl, by decide, rfl⟩,
    handleElementClick_list_switch_resets
      (Node.elem "body" [] []
        [Node.elem "div" ["header"] [] [Node.text "Shop"],
         Node.elem "div" ["grid"] []
           [Node.elem "div" ["product-card"] [] [Node.text "A"],
            Node.elem "div" ["product-card"] [] [Node.text "B"]],
         Node.elem "ul" [] []
           [Node.elem "li" ["row"] [] [Node.elem "a" [] [] [Node.text "L1"]],
            Node.elem "li" ["row"] [] [Node.elem "a" [] [] [Node.text "L2"]]]])
      ⟨[⟨"f1", "Title", Selector.classOnly "title", FieldType.TEXT⟩], [],
        some ⟨[1], Selector.tagClass "div" "product-card", [1, 0]⟩⟩
      [2, 0, 0]
      ⟨[1], Selector.tagClass "div" "product-card", [1, 0]⟩
      ⟨[2], Selector.tagClass "li" "row", [2, 0]⟩
      [2, 0] true 42 rfl (by decide) rfl⟩

/-! Claim: choosing "update" for a click that resolves to a selector
already used by an existing field (outside the list-switch branch) keeps
the field list's length and ids, changes only the matched field's display
name and type, leaves all other fields unchanged, and re-extracts the
same number of rows. -/

theorem updateData_length_const (root : Node) (ctx : ListContext)
    (fl1 fl2 : List ScrapedField) :
    (updateData root ctx fl1).length = (updateData root ctx fl2).length := by
  unfold updateData
  cases nodeAt root ctx.container with
  | none => rfl
  | some c =>
    unfold extractDataFromList
    rw [mapIdxFrom_length, mapIdxFrom_length]

/-- Duplicate-selector update: when the click resolves inside the current
context (no switch) to a selector already used by `existing` and the user
chooses the update option, the new field list is the old one with only
the matching field's name and type replaced — same length, same ids in
order, other fields untouched, id and selector of the updated field kept
— and the re-extracted row set has as many rows as before. -/
theorem handleElementClick_update_preserves_ids
    (root : Node) (st : AppState) (target : Path) (ctx0 : ListContext)
    (item : Path) (existing : ScrapedField) (confirmReset : Bool) (now : Nat)
    (hres : resolveClickContext root st target confirmReset =
      ClickCtx.proceed ctx0 false item)
    (hfind : st.fields.find?
      (fun f => f.selector == (resolveFieldFromClick root target item).selector) =
      some existing)
    (hdata : st.data.length = (updateData root ctx0 st.fields).length) :
    (handleElementClick root st true target confirmReset true now).fields =
      st.fields.map (fun f =>
        if f.id == existing.id then
          { f with name := capitalizeFirst (resolveFieldFromClick root target item).name,
                   type := (resolveFieldFromClick root target item).type }
        else f) ∧
    (handleElementClick root st true target confirmReset true now).fields.length =
      st.fields.length ∧
    (handleElementClick root st true target confirmReset true now).fields.map
      ScrapedField.id = st.fields.map ScrapedField.id ∧
    (∀ f ∈ st.fields, f.id ≠ existing.id →
      f ∈ (handleElementClick root st true target confirmReset true now).fields) ∧
    (handleElementClick root st true target confirmReset true now).data.length =
      st.data.length := by
  have h1 : handleElementClick root st true target confirmReset true now =
      applyFieldSelection root st ctx0 false
        (resolveFieldFromClick root target item) true now := by
    simp [handleElementClick, hres]
  have hfields : (handleElementClick root st true target confirmReset true now).fields =
      st.fields.map (fun f =>
        if f.id == existing.id then
          { f with name := capitalizeFirst (resolveFieldFromClick root target item).name,
                   type := (resolveFieldFromClick root target item).type }
        else f) := by
    rw [h1]
    simp only [applyFieldSelection]
    rw [show (if (false : Bool) = true then none
        else st.fields.find?
          (fun f => f.selector == (resolveFieldFromClick root target item).selector)) =
        some existing from by rw [if_neg (by simp), hfind]]
    simp
  have hdata2 : (handleElementClick root st true target confirmReset true now).data =
      updateData root ctx0 (st.fields.map (fun f =>
        if f.id == existing.id then
          { f with name := capitalizeFirst (resolveFieldFromClick root target item).name,
                   type := (resolveFieldFromClick root target item).type }
        else f)) := by
    rw [h1]
    simp only [applyFieldSelection]
    rw [show (if (false : Bool) = true then none
        else st.fields.find?
          (fun f => f.selector == (resolveFieldFromClick root target item).selector)) =
        some existing from by rw [if_neg (by simp), hfind]]
    simp
  refine ⟨hfields, ?_, ?_, ?_, ?_⟩
  · rw [hfields, List.length_map]
  · rw [hfields, List.map_map]
    apply List.map_congr_left
    intro a _
    by_cases hc : (a.id == existing.id) = true
    · simp [Function.comp, hc]
    · simp [Function.comp, hc]
  · intro f hf hne2
    rw [hfields]
    refine List.mem_map.mpr ⟨f, hf, ?_⟩
    simp [hne2]
  · rw [hdata2, updateData_length_const root ctx0 _ st.fields, ← hdata]

/-- Witness: clicking the second card's title (same `.title` selector as
the installed field) with the update choice keeps the field id `f1`, its
selector, the field count, and the two-row extraction. -/
theorem handleElementClick_update_preserves_ids_witness :
    let root : Node := Node.elem "body" [] []
      [Node.elem "div" ["grid"] []
        [Node.elem "div" ["product-card"] []
          [Node.elem "h3" ["title"] [] [Node.text "Alpha"]],
         Node.elem "div" ["product-card"] []
          [Node.elem "h3" ["title"] [] [Node.text "Beta"]]]]
    let ctx0 : ListContext := ⟨[0], Selector.tagClass "div" "product-card", [0, 0]⟩
    let st : AppState :=
      ⟨[⟨"f1", "Title", Selector.classOnly "title", FieldType.TEXT⟩],
        [[("id", some "row-0")], [("id", some "row-1")]], some ctx0⟩
    (resolveClickContext root st [0, 1, 0] true =
       ClickCtx.proceed ctx0 false [0, 1] ∧
     st.fields.find?
       (fun f => f.selector == (resolveFieldFromClick root [0, 1, 0] [0, 1]).selector) =
       some ⟨"f1", "Title", Selector.classOnly "title", FieldType.TEXT⟩ ∧
     st.data.length = (updateData root ctx0 st.fields).length) ∧
    ((handleElementClick root st true [0, 1, 0] true true 42).fields =
      st.fields.map (fun f =>
        if f.id == "f1" then
          { f with name := capitalizeFirst (resolveFieldFromClick root [0, 1, 0] [0, 1]).name,
                   type := (resolveFieldFromClick root [0, 1, 0] [0, 1]).type }
        else f) ∧
     (handleElementClick root st true [0, 1, 0] true true 42).fields.length =
       st.fields.length ∧
     (handleElementClick root st true [0, 1, 0] true true 42).fields.map
       ScrapedField.id = st.fields.map ScrapedField.id ∧
     (∀ f ∈ st.fields, f.id ≠ "f1" →
       f ∈ (handleElementClick root st true [0, 1, 0] true true 42).fields) ∧
     (handleElementClick root st true [0, 1, 0] true true 42).data.length =
       st.data.length) :=
  ⟨⟨rfl, rfl, rfl⟩,
    handleElementClick_update_preserves_ids
      (Node.elem "body" [] []
        [Node.elem "div" ["grid"] []
          [Node.elem "div" ["product-card"] []
            [Node.elem "h3" ["title"] [] [Node.text "Alpha"]],
           Node.elem "div" ["product-card"] []
            [Node.elem "h3" ["title"] [] [Node.text "Beta"]]]])
      ⟨[⟨"f1", "Title", Selector.classOnly "title", FieldType.TEXT⟩],
        [[("id", some "row-0")], [("id", some "row-1")]],
        some ⟨[0], Selector.tagClass "div" "product-card", [0, 0]⟩⟩
      [0, 1, 0]
      ⟨[0], Selector.tagClass "div" "product-card", [0, 0]⟩
      [0, 1]
      ⟨"f1", "Title", Selector.classOnly "title", FieldType.TEXT⟩
      true 42 rfl rfl rfl⟩

end Scraper
